import Mathlib

/-!
Shallow embedding of docker_healthchecker.py (a container health-check
poller) and proofs about its behaviour.

The program has three layers, each modelled here:

* Inspector (`_inspect_containers`): spawns `docker inspect` once for all
  container ids, parses its stdout as JSON.
* HealthProbe (`_is_healthy`): for one inspection record, dispatches on the
  health-check kind, spawns the check subprocess, and turns the exit code
  into a tri-state outcome; on cancellation it kills the subprocess and
  re-raises.
* Scheduler (`_check_containers`): drives a pending list of probe tasks and
  an optional timer task with first-completed waits, re-enqueueing a probe
  after each Unhealthy result, and cancelling everything when the timer has
  fired while tasks remain.

External effects (the container runtime, the JSON parser, which tasks a
wait cycle resolves and with what exit codes) are parameters of the
definitions; the control flow of the Python source is translated directly.
-/

deriving instance DecidableEq for Except

namespace DockerHealthchecker

/-- The `Healthcheck` block of a container's `Config`: the `Test` list,
whose head is the check-kind tag and whose tail is the command payload. -/
structure Healthcheck where
  test : List String
deriving DecidableEq

/-- The `Config` block of one `docker inspect` entry, restricted to the
field the program reads: `Config.get('Healthcheck')`. -/
structure Config where
  healthcheck : Option Healthcheck
deriving DecidableEq

/-- One entry of `docker inspect` output, restricted to the fields
`_is_healthy` reads: `Id`, `Name`, `Config`. -/
structure InspectData where
  id : String
  name : String
  config : Config
deriving DecidableEq

/-! ## Inspector: `_inspect_containers` -/

/-- The only exception `_inspect_containers` can raise itself:
`json.loads` failing on the captured stdout. -/
inductive InspectErr
  | jsonDecodeError
deriving DecidableEq

/-- Observable behaviour of one `_inspect_containers` call: the argument
vectors of the subprocesses it spawned, and its returned value or error. -/
structure InspectCall where
  spawned : List (List String)
  result : Except InspectErr (List InspectData)

/-- `_inspect_containers(container_ids)`: spawns
`docker inspect *container_ids` exactly once, awaits its stdout and runs
`json.loads` on it.  `parsed` is the outcome of the external JSON parse of
the captured stdout (`none` = not parseable); `exitCode` is the
subprocess's exit status.  The source never reads `process.returncode`
and never compares the parsed entries against `container_ids`: it returns
the parsed list as-is. -/
def inspect_containers (containerIds : List String) (exitCode : Int)
    (parsed : Option (List InspectData)) : InspectCall :=
  { spawned := [["docker", "inspect"] ++ containerIds],
    result :=
      match parsed with
      | none => .error .jsonDecodeError
      | some entries => .ok entries }

/-! ## HealthProbe: `_is_healthy` -/

/-- Exceptions `_is_healthy` can raise before producing an outcome:
`NotImplementedError(hc_type)` for an unrecognised check kind, and
`IndexError` for an empty `Test` list or a `CMD-SHELL` entry with no
command string. -/
inductive ProbeErr
  | notImplemented (tag : String)
  | indexError
deriving DecidableEq

/-- The `docker exec` subprocess a probe spawns: either the single command
string run through `/bin/sh -c` (kind `CMD-SHELL`) or a literal argument
vector (kind `CMD`). -/
inductive Spawn
  | shell (containerId cmd : String)
  | args (containerId : String) (argv : List String)
deriving DecidableEq

/-- Observable behaviour of one completed `_is_healthy` call: the
subprocess it spawned (if any), the inspection record it returns
unchanged, and the tri-state outcome — `some true` healthy, `some false`
unhealthy, `none` no health check configured. -/
structure ProbeRun where
  spawned : Option Spawn
  record : InspectData
  healthy : Option Bool
deriving DecidableEq

/-- `_is_healthy(inspect_data)` for a run whose health-check subprocess
(when one is spawned) terminates with exit status `code`.  Follows the
source: a missing (or falsy) `Healthcheck` returns `(inspect_data, None)`
with no subprocess; otherwise the head of `Test` is dispatched —
`CMD-SHELL` wraps the first payload token in `/bin/sh -c`, `CMD` passes
the payload tokens verbatim, anything else raises
`NotImplementedError(hc_type)`.  After the process exits,
`healthy = not bool(returncode)`. -/
def is_healthy (d : InspectData) (code : Int) : Except ProbeErr ProbeRun :=
  match d.config.healthcheck with
  | some hc =>
    match hc.test with
    | [] => .error .indexError
    | tag :: hcArgs =>
      if tag = "CMD-SHELL" then
        match hcArgs with
        | [] => .error .indexError
        | cmd :: _ => .ok ⟨some (.shell d.id cmd), d, some (decide (code = 0))⟩
      else if tag = "CMD" then
        .ok ⟨some (.args d.id hcArgs), d, some (decide (code = 0))⟩
      else .error (.notImplemented tag)
  | none => .ok ⟨none, d, none⟩

/-! ## Probe cancellation: the `except asyncio.CancelledError` handler -/

/-- State of a probe's health-check subprocess as the operating system
sees it. -/
inductive ProcState
  | running
  | exited (code : Int)
deriving DecidableEq

/-- `process.kill()`: delivers SIGKILL to a running process; raises
`ProcessLookupError` when the process has already exited. -/
def killProcess : ProcState → Except Unit ProcState
  | .running => .ok (.exited (-9))
  | .exited _ => .error ()

/-- `await process.wait()` once the process can no longer be signalled:
observes the exit status. -/
def waitProcess : ProcState → ProcState
  | .running => .running
  | .exited c => .exited c

/-- What a cancelled probe propagates instead of a `ProbeRun`:
the re-raised `asyncio.CancelledError`. -/
inductive CancelSignal
  | cancelled
deriving DecidableEq

/-- The `except asyncio.CancelledError` handler of `_is_healthy`: try
`process.kill()`, treat `ProcessLookupError` as success (`pass`), then
`await process.wait()`, then re-raise the cancellation.  Returns the final
subprocess state and the propagated signal. -/
def onCancel (p : ProcState) : ProcState × CancelSignal :=
  let killed :=
    match killProcess p with
    | .ok q => q
    | .error _ => p
  (waitProcess killed, .cancelled)

/-! ## Scheduler: `_check_containers` -/

/-- A task in the scheduler's `pending` list: one `_is_healthy(record)`
future, or the single `_timeout(timeout)` future. -/
inductive SchedTask
  | probe (rec : InspectData)
  | timer
deriving DecidableEq

/-- The scheduler's loop state: the `pending` task list and the
`timedout` flag. -/
structure SchedState where
  pending : List SchedTask
  timedout : Bool
deriving DecidableEq

/-- One wait cycle of the event loop, as chosen by the environment:
position `i` of the current `pending` list completes this cycle iff the
cycle list holds `some code` at `i` (for a probe, `code` is its
subprocess's exit status; for the timer, completion means the
`asyncio.TimeoutError` is raised and the value is ignored).  Unmarked
positions stay pending. -/
abbrev Cycle := List (Option Int)

/-- `done, pending = await asyncio.wait(pending, FIRST_COMPLETED)`:
split the current task list into the completed tasks (paired with their
exit codes) and the still-pending rest, following the cycle's markers. -/
def splitCycle : List SchedTask → Cycle → List (SchedTask × Int) × List SchedTask
  | [], _ => ([], [])
  | t :: ts, [] => ([], t :: ts)
  | t :: ts, none :: ms =>
    let r := splitCycle ts ms
    (r.1, t :: r.2)
  | t :: ts, some e :: ms =>
    let r := splitCycle ts ms
    ((t, e) :: r.1, r.2)

/-- The `for f in done:` body of `_check_containers`: each completed timer
raises `asyncio.TimeoutError`, caught by setting `timedout = True`; each
completed probe either re-raises its `NotImplementedError` (which escapes
the function — modelled as the error result, paired with the `pending`
list left dangling at that point) or yields `(inspect_data, result)`, and
`result is False` appends a fresh `_is_healthy(inspect_data)` future to
`pending`. -/
def processLoop : List (SchedTask × Int) → Bool → List SchedTask →
    Except (ProbeErr × List SchedTask) (Bool × List SchedTask)
  | [], timedout, pending => .ok (timedout, pending)
  | (SchedTask.timer, _) :: fs, _, pending => processLoop fs true pending
  | (SchedTask.probe rec, code) :: fs, timedout, pending =>
    match is_healthy rec code with
    | .error e => .error (e, pending)
    | .ok pr =>
      if pr.healthy = some false then
        processLoop fs timedout (pending ++ [SchedTask.probe pr.record])
      else
        processLoop fs timedout pending

/-- Result of running (a prefix of) `_check_containers`'s loop:
it returned `None` (success), raised `asyncio.TimeoutError` after
cancelling and awaiting the listed tasks, let a probe's error escape with
the listed tasks left dangling, or is still looping in the given state. -/
inductive StepResult
  | success
  | timeoutFailure (cancelled : List SchedTask)
  | aborted (e : ProbeErr) (dangling : List SchedTask)
  | running (s : SchedState)
deriving DecidableEq

/-- One iteration of the `while pending:` loop.  In source order: the
`while` guard (empty `pending` exits with success), the
`if timeout and len(pending) == 1: break` fast path, the first-completed
wait, the `for f in done:` body, and finally
`if timedout and pending:` — cancel and await every task still in
`pending` (each one's `CancelledError` is swallowed) and raise
`asyncio.TimeoutError`. -/
def stepCycle (hasTimeout : Bool) (s : SchedState) (cyc : Cycle) : StepResult :=
  if s.pending = [] then .success
  else if hasTimeout = true ∧ s.pending.length = 1 then .success
  else
    match processLoop (splitCycle s.pending cyc).1 s.timedout (splitCycle s.pending cyc).2 with
    | .error (e, dangling) => .aborted e dangling
    | .ok (timedout, pending) =>
      if timedout = true ∧ pending ≠ [] then .timeoutFailure pending
      else .running ⟨pending, timedout⟩

/-- Run the loop under a finite schedule of wait cycles.  When the
schedule is exhausted the loop guards are consulted one final time; a
loop that would keep waiting is reported as still `running`. -/
def runAux (hasTimeout : Bool) : SchedState → List Cycle → StepResult
  | s, [] =>
    if s.pending = [] then .success
    else if hasTimeout = true ∧ s.pending.length = 1 then .success
    else .running s
  | s, c :: cs =>
    match stepCycle hasTimeout s c with
    | .running s' => runAux hasTimeout s' cs
    | r => r

/-- Python truthiness of the `timeout` argument (`if timeout:`):
`None` and `0` are falsy, every other integer is truthy. -/
def timeoutTruthy : Option Int → Bool
  | none => false
  | some t => decide (t ≠ 0)

/-- The scheduler's initial `pending` list: one `_is_healthy` future per
inspected record, plus the `_timeout(timeout)` future when `timeout` is
truthy. -/
def initialPending (records : List InspectData) (timeout : Option Int) :
    List SchedTask :=
  records.map SchedTask.probe ++
    (if timeoutTruthy timeout then [SchedTask.timer] else [])

/-- `_check_containers(containers, timeout)` after the initial inspection
produced `records`, run under the given schedule of wait cycles. -/
def check_containers (records : List InspectData) (timeout : Option Int)
    (sched : List Cycle) : StepResult :=
  runAux (timeoutTruthy timeout) ⟨initialPending records timeout, false⟩ sched

/-! ## Instrumentation used by the statements -/

/-- Number of in-flight probe tasks for the container record `r`. -/
def countFor (r : InspectData) : List SchedTask → Nat
  | [] => 0
  | SchedTask.probe d :: ts => (if d = r then 1 else 0) + countFor r ts
  | SchedTask.timer :: ts => countFor r ts

/-- Number of completed probe tasks for `r` in a done list. -/
def doneCount (r : InspectData) : List (SchedTask × Int) → Nat
  | [] => 0
  | (SchedTask.probe d, _) :: fs => (if d = r then 1 else 0) + doneCount r fs
  | (SchedTask.timer, _) :: fs => doneCount r fs

/-- A completed task resolves `r` when it is a probe of `r` whose outcome
is `Healthy` or `NotApplicable` (anything except `Unhealthy`). -/
def resolvesOk (r : InspectData) : SchedTask × Int → Bool
  | (SchedTask.probe d, code) =>
    match is_healthy d code with
    | .ok pr => decide (d = r) && decide (pr.healthy ≠ some false)
    | .error _ => false
  | (SchedTask.timer, _) => false

/-- Number of completed probes of `r` in a done list whose outcome is
`Healthy` or `NotApplicable`. -/
def resolvedCount (r : InspectData) : List (SchedTask × Int) → Nat
  | [] => 0
  | f :: fs => (if resolvesOk r f then 1 else 0) + resolvedCount r fs

/-- The task list contains no timer task. -/
def noTimer : List SchedTask → Bool
  | [] => true
  | SchedTask.probe _ :: ts => noTimer ts
  | SchedTask.timer :: _ => false

/-- The done list contains no timer task. -/
def noTimerDone : List (SchedTask × Int) → Bool
  | [] => true
  | (SchedTask.probe _, _) :: fs => noTimerDone fs
  | (SchedTask.timer, _) :: _ => false

/-- Total number of `Healthy` / `NotApplicable` resolutions of `r`
over a run of the loop under the given schedule. -/
def sumResolved (b : Bool) (r : InspectData) : SchedState → List Cycle → Nat
  | _, [] => 0
  | s, c :: cs =>
    match stepCycle b s c with
    | .running s' => resolvedCount r (splitCycle s.pending c).1 + sumResolved b r s' cs
    | _ => resolvedCount r (splitCycle s.pending c).1

/-- Reachability between loop states: zero or more `running` steps of
`stepCycle`. -/
inductive Reaches (b : Bool) : SchedState → SchedState → Prop
  | refl (s : SchedState) : Reaches b s s
  | step {s s' s'' : SchedState} (c : Cycle) :
      stepCycle b s c = .running s' → Reaches b s' s'' → Reaches b s s''

/-! ## Helper lemmas -/

theorem countFor_append (r : InspectData) (a b : List SchedTask) :
    countFor r (a ++ b) = countFor r a + countFor r b := by
  induction a with
  | nil => simp [countFor]
  | cons t ts ih =>
    cases t with
    | probe d => simp [countFor, ih]; omega
    | timer => simp [countFor, ih]

theorem is_healthy_record {d : InspectData} {code : Int} {pr : ProbeRun}
    (h : is_healthy d code = .ok pr) : pr.record = d := by
  unfold is_healthy at h
  repeat' split at h
  all_goals simp_all
  all_goals (cases h; rfl)

theorem splitCycle_count (r : InspectData) :
    ∀ (ts : List SchedTask) (cyc : Cycle),
      countFor r (splitCycle ts cyc).2 + doneCount r (splitCycle ts cyc).1
        = countFor r ts := by
  intro ts
  induction ts with
  | nil => intro cyc; simp [splitCycle, countFor, doneCount]
  | cons t ts ih =>
    intro cyc
    cases cyc with
    | nil => simp [splitCycle, doneCount]
    | cons m ms =>
      have h := ih ms
      cases m with
      | none =>
        cases t with
        | probe d => simp [splitCycle, countFor]; omega
        | timer => simpa [splitCycle, countFor] using h
      | some e =>
        cases t with
        | probe d => simp [splitCycle, countFor, doneCount]; omega
        | timer => simpa [splitCycle, countFor, doneCount] using h

theorem processLoop_count (r : InspectData) :
    ∀ (fs : List (SchedTask × Int)) (td : Bool) (pend : List SchedTask)
      (td' : Bool) (pend' : List SchedTask),
      processLoop fs td pend = .ok (td', pend') →
      countFor r pend' + resolvedCount r fs = countFor r pend + doneCount r fs := by
  intro fs
  induction fs with
  | nil =>
    intro td pend td' pend' h
    simp [processLoop] at h
    simp [h.2, resolvedCount, doneCount]
  | cons f fs ih =>
    intro td pend td' pend' h
    obtain ⟨t, code⟩ := f
    cases t with
    | timer =>
      simp only [processLoop] at h
      have := ih true pend td' pend' h
      simp [resolvedCount, resolvesOk, doneCount, this]
    | probe d =>
      simp only [processLoop] at h
      cases hh : is_healthy d code with
      | error e => rw [hh] at h; cases h
      | ok pr =>
        rw [hh] at h
        simp only at h
        by_cases hu : pr.healthy = some false
        · rw [if_pos hu] at h
          have := ih td (pend ++ [SchedTask.probe pr.record]) td' pend' h
          rw [countFor_append] at this
          have hrec : pr.record = d := is_healthy_record hh
          subst hrec
          simp [resolvedCount, resolvesOk, hh, hu, doneCount, countFor] at this ⊢
          by_cases hdr : pr.record = r
          · simp [hdr] at this ⊢; omega
          · simp [hdr] at this ⊢; omega
        · rw [if_neg hu] at h
          have := ih td pend td' pend' h
          simp [resolvedCount, resolvesOk, hh, hu, doneCount, countFor] at this ⊢
          by_cases hdr : d = r
          · simp [hdr] at this ⊢; omega
          · simp [hdr] at this ⊢; omega

theorem stepCycle_running_count (r : InspectData) {b : Bool} {s s' : SchedState}
    {cyc : Cycle} (h : stepCycle b s cyc = .running s') :
    countFor r s'.pending + resolvedCount r (splitCycle s.pending cyc).1
      = countFor r s.pending := by
  unfold stepCycle at h
  by_cases h0 : s.pending = []
  · rw [if_pos h0] at h; cases h
  · rw [if_neg h0] at h
    by_cases h1 : b = true ∧ s.pending.length = 1
    · rw [if_pos h1] at h; cases h
    · rw [if_neg h1] at h
      cases hp : processLoop (splitCycle s.pending cyc).1 s.timedout
          (splitCycle s.pending cyc).2 with
      | error e =>
        obtain ⟨e1, e2⟩ := e
        simp only [hp] at h
        cases h
      | ok out =>
        obtain ⟨td, pend⟩ := out
        simp only [hp] at h
        by_cases h2 : td = true ∧ pend ≠ []
        · rw [if_pos h2] at h; cases h
        · rw [if_neg h2] at h
          cases h
          have hc := processLoop_count r _ _ _ _ _ hp
          have hs := splitCycle_count r s.pending cyc
          simp only
          omega

theorem stepCycle_running_le (r : InspectData) {b : Bool} {s s' : SchedState}
    {cyc : Cycle} (h : stepCycle b s cyc = .running s') :
    countFor r s'.pending ≤ countFor r s.pending := by
  have := stepCycle_running_count r h
  omega

theorem stepCycle_false_success {s : SchedState} {c : Cycle}
    (h : stepCycle false s c = .success) : s.pending = [] := by
  by_contra h0
  unfold stepCycle at h
  rw [if_neg h0, if_neg (by simp)] at h
  cases hp : processLoop (splitCycle s.pending c).1 s.timedout
      (splitCycle s.pending c).2 with
  | error e => obtain ⟨e1, e2⟩ := e; simp only [hp] at h; cases h
  | ok out =>
    obtain ⟨td, pend⟩ := out
    simp only [hp] at h
    by_cases h2 : td = true ∧ pend ≠ []
    · rw [if_pos h2] at h; cases h
    · rw [if_neg h2] at h; cases h

theorem runAux_nil_pending (b td : Bool) (cs : List Cycle) :
    runAux b ⟨[], td⟩ cs = .success := by
  cases cs with
  | nil => simp [runAux]
  | cons c cs => simp [runAux, stepCycle]

theorem runAux_success_le (r : InspectData) :
    ∀ (sched : List Cycle) (s : SchedState),
      runAux false s sched = .success →
      countFor r s.pending ≤ sumResolved false r s sched := by
  intro sched
  induction sched with
  | nil =>
    intro s h
    unfold runAux at h
    by_cases h0 : s.pending = []
    · rw [h0]; simp [countFor]
    · rw [if_neg h0, if_neg (by simp)] at h; cases h
  | cons c cs ih =>
    intro s h
    unfold runAux at h
    cases hs : stepCycle false s c with
    | running s' =>
      simp only [hs] at h
      have h1 := ih s' h
      have h2 := stepCycle_running_count r hs
      unfold sumResolved
      simp only [hs]
      omega
    | success =>
      have h0 := stepCycle_false_success hs
      rw [h0]
      simp [countFor]
    | timeoutFailure l => simp only [hs] at h; cases h
    | aborted e dg => simp only [hs] at h; cases h

theorem countFor_map_probe_of_mem {r : InspectData} {records : List InspectData}
    (h : r ∈ records) : 1 ≤ countFor r (records.map SchedTask.probe) := by
  induction records with
  | nil => cases h
  | cons a l ih =>
    simp only [List.map_cons, countFor]
    rcases List.mem_cons.mp h with h1 | h1
    · rw [if_pos h1.symm]; omega
    · have := ih h1; omega

theorem countFor_map_probe_of_not_mem {r : InspectData} {records : List InspectData}
    (h : r ∉ records) : countFor r (records.map SchedTask.probe) = 0 := by
  induction records with
  | nil => rfl
  | cons a l ih =>
    simp only [List.mem_cons, not_or] at h
    simp only [List.map_cons, countFor]
    rw [if_neg (fun he => h.1 he.symm)]
    simp [ih h.2]

theorem countFor_map_probe_nodup {records : List InspectData}
    (h : records.Nodup) (r : InspectData) :
    countFor r (records.map SchedTask.probe) ≤ 1 := by
  induction records with
  | nil => simp [countFor]
  | cons a l ih =>
    rw [List.nodup_cons] at h
    simp only [List.map_cons, countFor]
    by_cases ha : a = r
    · rw [if_pos ha]
      have h0 : countFor r (List.map SchedTask.probe l) = 0 :=
        countFor_map_probe_of_not_mem (ha ▸ h.1)
      omega
    · rw [if_neg ha]
      have := ih h.2
      omega

theorem countFor_initialPending (r : InspectData) (records : List InspectData)
    (timeout : Option Int) :
    countFor r (initialPending records timeout)
      = countFor r (records.map SchedTask.probe) := by
  unfold initialPending
  rw [countFor_append]
  by_cases ht : timeoutTruthy timeout = true
  · simp [ht, countFor]
  · simp [Bool.eq_false_iff.mpr ht, countFor]

theorem noTimer_append (a b : List SchedTask) :
    noTimer (a ++ b) = (noTimer a && noTimer b) := by
  induction a with
  | nil => simp [noTimer]
  | cons t ts ih =>
    cases t with
    | probe d => simp [noTimer, ih]
    | timer => simp [noTimer]

theorem splitCycle_noTimer :
    ∀ (ts : List SchedTask) (cyc : Cycle), noTimer ts = true →
      noTimerDone (splitCycle ts cyc).1 = true ∧ noTimer (splitCycle ts cyc).2 = true := by
  intro ts
  induction ts with
  | nil => intro cyc _; simp [splitCycle, noTimer, noTimerDone]
  | cons t ts ih =>
    intro cyc hnt
    cases t with
    | timer => simp [noTimer] at hnt
    | probe d =>
      rw [show noTimer (SchedTask.probe d :: ts) = noTimer ts from rfl] at hnt
      cases cyc with
      | nil => simpa [splitCycle, noTimerDone, noTimer] using hnt
      | cons m ms =>
        cases m with
        | none =>
          have := ih ms hnt
          simpa [splitCycle, noTimer] using this
        | some e =>
          have := ih ms hnt
          simpa [splitCycle, noTimerDone] using this

theorem processLoop_timedout_eq :
    ∀ (fs : List (SchedTask × Int)) (td : Bool) (pend : List SchedTask)
      (td' : Bool) (pend' : List SchedTask),
      noTimerDone fs = true →
      processLoop fs td pend = .ok (td', pend') → td' = td := by
  intro fs
  induction fs with
  | nil =>
    intro td pend td' pend' _ h
    simp [processLoop] at h
    exact h.1.symm
  | cons f fs ih =>
    intro td pend td' pend' hnt h
    obtain ⟨t, code⟩ := f
    cases t with
    | timer => simp [noTimerDone] at hnt
    | probe d =>
      rw [show noTimerDone ((SchedTask.probe d, code) :: fs) = noTimerDone fs
        from rfl] at hnt
      simp only [processLoop] at h
      cases hh : is_healthy d code with
      | error e => rw [hh] at h; cases h
      | ok pr =>
        rw [hh] at h
        simp only at h
        by_cases hu : pr.healthy = some false
        · rw [if_pos hu] at h
          exact ih td _ td' pend' hnt h
        · rw [if_neg hu] at h
          exact ih td pend td' pend' hnt h

theorem processLoop_noTimer_pending :
    ∀ (fs : List (SchedTask × Int)) (td : Bool) (pend : List SchedTask)
      (td' : Bool) (pend' : List SchedTask),
      noTimer pend = true →
      processLoop fs td pend = .ok (td', pend') → noTimer pend' = true := by
  intro fs
  induction fs with
  | nil =>
    intro td pend td' pend' hnt h
    simp [processLoop] at h
    exact h.2 ▸ hnt
  | cons f fs ih =>
    intro td pend td' pend' hnt h
    obtain ⟨t, code⟩ := f
    cases t with
    | timer => exact ih true pend td' pend' hnt h
    | probe d =>
      simp only [processLoop] at h
      cases hh : is_healthy d code with
      | error e => rw [hh] at h; cases h
      | ok pr =>
        rw [hh] at h
        simp only at h
        by_cases hu : pr.healthy = some false
        · rw [if_pos hu] at h
          refine ih td _ td' pend' ?_ h
          rw [noTimer_append, hnt]
          rfl
        · rw [if_neg hu] at h
          exact ih td pend td' pend' hnt h

theorem stepCycle_timeoutFailure_inv {b : Bool} {s : SchedState} {c : Cycle}
    {l : List SchedTask} (h : stepCycle b s c = .timeoutFailure l) :
    s.pending ≠ [] ∧ ¬(b = true ∧ s.pending.length = 1) ∧
    processLoop (splitCycle s.pending c).1 s.timedout (splitCycle s.pending c).2
      = .ok (true, l) ∧ l ≠ [] := by
  unfold stepCycle at h
  by_cases h0 : s.pending = []
  · rw [if_pos h0] at h; cases h
  · rw [if_neg h0] at h
    by_cases h1 : b = true ∧ s.pending.length = 1
    · rw [if_pos h1] at h; cases h
    · rw [if_neg h1] at h
      cases hp : processLoop (splitCycle s.pending c).1 s.timedout
          (splitCycle s.pending c).2 with
      | error e => obtain ⟨e1, e2⟩ := e; simp only [hp] at h; cases h
      | ok out =>
        obtain ⟨td, pend⟩ := out
        simp only [hp] at h
        by_cases h2 : td = true ∧ pend ≠ []
        · rw [if_pos h2] at h
          injection h with h3
          subst h3
          refine ⟨h0, h1, ?_, h2.2⟩
          rw [h2.1]
        · rw [if_neg h2] at h; cases h

theorem stepCycle_running_inv {b : Bool} {s : SchedState} {c : Cycle}
    {s' : SchedState} (h : stepCycle b s c = .running s') :
    s.pending ≠ [] ∧ ¬(b = true ∧ s.pending.length = 1) ∧
    processLoop (splitCycle s.pending c).1 s.timedout (splitCycle s.pending c).2
      = .ok (s'.timedout, s'.pending) ∧ ¬(s'.timedout = true ∧ s'.pending ≠ []) := by
  unfold stepCycle at h
  by_cases h0 : s.pending = []
  · rw [if_pos h0] at h; cases h
  · rw [if_neg h0] at h
    by_cases h1 : b = true ∧ s.pending.length = 1
    · rw [if_pos h1] at h; cases h
    · rw [if_neg h1] at h
      cases hp : processLoop (splitCycle s.pending c).1 s.timedout
          (splitCycle s.pending c).2 with
      | error e => obtain ⟨e1, e2⟩ := e; simp only [hp] at h; cases h
      | ok out =>
        obtain ⟨td, pend⟩ := out
        simp only [hp] at h
        by_cases h2 : td = true ∧ pend ≠ []
        · rw [if_pos h2] at h; cases h
        · rw [if_neg h2] at h
          injection h with h3
          subst h3
          exact ⟨h0, h1, rfl, h2⟩

theorem stepCycle_noTimer_inv {b : Bool} {s : SchedState} {c : Cycle}
    (hnt : noTimer s.pending = true) (htd : s.timedout = false) :
    (∀ l, stepCycle b s c ≠ .timeoutFailure l)
    ∧ (∀ s', stepCycle b s c = .running s' →
        noTimer s'.pending = true ∧ s'.timedout = false) := by
  have hsplit := splitCycle_noTimer s.pending c hnt
  constructor
  · intro l h
    obtain ⟨-, -, hp, -⟩ := stepCycle_timeoutFailure_inv h
    have := processLoop_timedout_eq _ _ _ _ _ hsplit.1 hp
    rw [htd] at this
    cases this
  · intro s' h
    obtain ⟨-, -, hp, -⟩ := stepCycle_running_inv h
    have h1 := processLoop_timedout_eq _ _ _ _ _ hsplit.1 hp
    have h2 := processLoop_noTimer_pending _ _ _ _ _ hsplit.2 hp
    rw [htd] at h1
    exact ⟨h2, h1⟩

theorem runAux_no_timeoutFailure {b : Bool} :
    ∀ (sched : List Cycle) (s : SchedState),
      noTimer s.pending = true → s.timedout = false →
      ∀ l, runAux b s sched ≠ .timeoutFailure l := by
  intro sched
  induction sched with
  | nil =>
    intro s _ _ l h
    unfold runAux at h
    by_cases h0 : s.pending = []
    · rw [if_pos h0] at h; cases h
    · rw [if_neg h0] at h
      by_cases h1 : b = true ∧ s.pending.length = 1
      · rw [if_pos h1] at h; cases h
      · rw [if_neg h1] at h; cases h
  | cons c cs ih =>
    intro s hnt htd l h
    unfold runAux at h
    cases hs : stepCycle b s c with
    | running s' =>
      simp only [hs] at h
      have hinv := (stepCycle_noTimer_inv hnt htd).2 s' hs
      exact ih s' hinv.1 hinv.2 l h
    | success => simp only [hs] at h; cases h
    | timeoutFailure l2 => exact (stepCycle_noTimer_inv hnt htd).1 l2 hs
    | aborted e dg => simp only [hs] at h; cases h

theorem noTimer_map_probe (records : List InspectData) :
    noTimer (records.map SchedTask.probe) = true := by
  induction records with
  | nil => rfl
  | cons a l ih => simpa [noTimer] using ih

theorem processLoop_ok_probe :
    ∀ (fs : List (SchedTask × Int)) (td : Bool) (pend : List SchedTask)
      (out : Bool × List SchedTask),
      processLoop fs td pend = .ok out →
      ∀ (rec : InspectData) (code : Int), (SchedTask.probe rec, code) ∈ fs →
      ∃ pr, is_healthy rec code = .ok pr := by
  intro fs
  induction fs with
  | nil => intro td pend out _ rec code hm; cases hm
  | cons f fs ih =>
    intro td pend out h rec code hm
    rcases List.mem_cons.mp hm with h1 | h1
    · subst h1
      simp only [processLoop] at h
      cases hh : is_healthy rec code with
      | error e => rw [hh] at h; cases h
      | ok pr => exact ⟨pr, rfl⟩
    · obtain ⟨t, tcode⟩ := f
      cases t with
      | timer => exact ih true pend out h rec code h1
      | probe d =>
        simp only [processLoop] at h
        cases hh : is_healthy d tcode with
        | error e => rw [hh] at h; cases h
        | ok pr =>
          rw [hh] at h
          simp only at h
          by_cases hu : pr.healthy = some false
          · rw [if_pos hu] at h
            exact ih td _ out h rec code h1
          · rw [if_neg hu] at h
            exact ih td pend out h rec code h1

theorem reaches_countFor_le {b : Bool} {s0 s : SchedState}
    (h : Reaches b s0 s) (r : InspectData) :
    countFor r s.pending ≤ countFor r s0.pending := by
  induction h with
  | refl s => exact le_refl _
  | step c hs _ ih =>
    have := stepCycle_running_count r hs
    omega

/-! ## Claim theorems -/

/-- C3: for every probe whose health-check process terminates, the outcome
is Healthy exactly when the exit code is zero and Unhealthy for any
non-zero exit code, the exit code not being otherwise interpreted; in
particular a CMD-SHELL check whose shell process exits with code 3 (as the
command string given as exit 3 does) yields Unhealthy. -/
theorem probe_healthy_iff_zero_exit :
    (∀ (d : InspectData) (code : Int) (pr : ProbeRun) (h' : Bool),
      is_healthy d code = .ok pr → pr.healthy = some h' → (h' = true ↔ code = 0))
    ∧ is_healthy
        (InspectData.mk "c3" "/c3"
          (Config.mk (some (Healthcheck.mk ["CMD-SHELL", "exit 3"])))) 3
      = .ok (ProbeRun.mk
          (some (Spawn.shell "c3" "exit 3"))
          (InspectData.mk "c3" "/c3"
            (Config.mk (some (Healthcheck.mk ["CMD-SHELL", "exit 3"]))))
          (some false)) := by
  constructor
  · intro d code pr h' h hh
    unfold is_healthy at h
    repeat' split at h
    all_goals cases h
    all_goals first
      | (injection hh with hh1; subst hh1; simp)
      | injection hh
  · decide

/-- Witness for C3: a CMD probe whose process exits 2 is Unhealthy, and the
iff instantiates to false = true ↔ 2 = 0. -/
theorem probe_healthy_iff_zero_exit_witness :
    (is_healthy (InspectData.mk "w3" "/w3" (Config.mk (some (Healthcheck.mk ["CMD", "x"])))) 2
      = .ok (ProbeRun.mk (some (Spawn.args "w3" ["x"]))
          (InspectData.mk "w3" "/w3" (Config.mk (some (Healthcheck.mk ["CMD", "x"]))))
          (some false)))
    ∧ (false = true ↔ (2 : Int) = 0) := by
  constructor
  · decide
  · exact probe_healthy_iff_zero_exit.1
      (InspectData.mk "w3" "/w3" (Config.mk (some (Healthcheck.mk ["CMD", "x"])))) 2
      (ProbeRun.mk (some (Spawn.args "w3" ["x"]))
        (InspectData.mk "w3" "/w3" (Config.mk (some (Healthcheck.mk ["CMD", "x"]))))
        (some false))
      false (by decide) (by decide)

/-- C5 counterexample: the inspection subprocess exits 1 and the requested
identifier foo is absent from the parsed response (an empty JSON list), yet
inspect succeeds with an empty record list instead of failing. -/
theorem inspect_missing_id_nonzero_exit_counterexample :
    (inspect_containers ["foo"] 1 (some [])).result = Except.ok []
    ∧ (inspect_containers ["foo"] 1 (some [])).spawned
      = [["docker", "inspect", "foo"]] := ⟨rfl, rfl⟩

/-- C5 (amended): inspect spawns the inspection subprocess exactly once
with the full identifier set and returns one record per parsed entry; its
only failure mode is an unparseable response — the subprocess exit status
is ignored (the result does not depend on it) and identifiers absent from
the response are not detected. -/
theorem inspect_single_spawn_parse_only_failure :
    (∀ (ids : List String) (c1 c2 : Int) (p : Option (List InspectData)),
      inspect_containers ids c1 p = inspect_containers ids c2 p)
    ∧ (∀ (ids : List String) (c : Int) (entries : List InspectData),
      (inspect_containers ids c (some entries)).result = .ok entries)
    ∧ (∀ (ids : List String) (c : Int),
      (inspect_containers ids c none).result = .error .jsonDecodeError)
    ∧ (∀ (ids : List String) (c : Int) (p : Option (List InspectData)),
      (inspect_containers ids c p).spawned = [["docker", "inspect"] ++ ids]) :=
  ⟨fun _ _ _ _ => rfl, fun _ _ _ => rfl, fun _ _ => rfl, fun _ _ _ => rfl⟩

/-- C6: probe dispatch is exhaustive on the check-kind tag — CMD-SHELL runs
the single string argument through the container's shell, CMD runs the
remaining tokens as a literal argument vector, any other tag raises
NotImplementedError; a scheduler cycle that completes normally contains no
such probe (the error is never treated as Unhealthy or retried), and an
aborted cycle ends the whole run immediately. -/
theorem dispatch_exhaustive_unknown_tag_aborts :
    (∀ (d : InspectData) (hc : Healthcheck) (cmd : String) (rest : List String)
      (code : Int),
      d.config.healthcheck = some hc → hc.test = "CMD-SHELL" :: cmd :: rest →
      is_healthy d code
        = .ok (ProbeRun.mk (some (Spawn.shell d.id cmd)) d (some (decide (code = 0)))))
    ∧ (∀ (d : InspectData) (hc : Healthcheck) (hcArgs : List String) (code : Int),
      d.config.healthcheck = some hc → hc.test = "CMD" :: hcArgs →
      is_healthy d code
        = .ok (ProbeRun.mk (some (Spawn.args d.id hcArgs)) d (some (decide (code = 0)))))
    ∧ (∀ (d : InspectData) (hc : Healthcheck) (tag : String) (hcArgs : List String)
      (code : Int),
      d.config.healthcheck = some hc → hc.test = tag :: hcArgs →
      tag ≠ "CMD-SHELL" → tag ≠ "CMD" →
      is_healthy d code = .error (.notImplemented tag))
    ∧ (∀ (fs : List (SchedTask × Int)) (td : Bool) (pend : List SchedTask)
      (out : Bool × List SchedTask),
      processLoop fs td pend = .ok out →
      ∀ (rec : InspectData) (code : Int), (SchedTask.probe rec, code) ∈ fs →
      ∃ pr, is_healthy rec code = .ok pr)
    ∧ (∀ (b : Bool) (s : SchedState) (c : Cycle) (cs : List Cycle) (e : ProbeErr)
      (dg : List SchedTask),
      stepCycle b s c = .aborted e dg → runAux b s (c :: cs) = .aborted e dg) := by
  refine ⟨?_, ?_, ?_, processLoop_ok_probe, ?_⟩
  · intro d hc cmd rest code h1 h2
    simp [is_healthy, h1, h2]
  · intro d hc hcArgs code h1 h2
    simp [is_healthy, h1, h2]
  · intro d hc tag hcArgs code h1 h2 h3 h4
    simp [is_healthy, h1, h2, h3, h4]
  · intro b s c cs e dg h
    unfold runAux
    simp only [h]

/-- Witness for C6: a probe with the unrecognised tag HTTP raises
NotImplementedError. -/
theorem dispatch_exhaustive_unknown_tag_aborts_witness :
    is_healthy (InspectData.mk "w6" "/w6" (Config.mk (some (Healthcheck.mk ["HTTP", "x"])))) 0
      = .error (.notImplemented "HTTP") :=
  dispatch_exhaustive_unknown_tag_aborts.2.2.1
    (InspectData.mk "w6" "/w6" (Config.mk (some (Healthcheck.mk ["HTTP", "x"]))))
    (Healthcheck.mk ["HTTP", "x"]) "HTTP" ["x"] 0 rfl rfl (by decide) (by decide)

/-- C8: a record whose health-check spec is absent probes to NotApplicable
with no subprocess spawned, for every exit-code environment. -/
theorem probe_no_healthcheck_not_applicable (idStr nameStr : String) (code : Int) :
    is_healthy (InspectData.mk idStr nameStr (Config.mk none)) code
      = .ok (ProbeRun.mk none (InspectData.mk idStr nameStr (Config.mk none)) none) := rfl

/-- C9: on external cancellation the probe kills its subprocess, treats an
already-exited process (ProcessLookupError) as success, waits for the
process, and propagates the cancellation signal instead of a ProbeOutcome;
in every case the subprocess has exited when the handler finishes. -/
theorem cancel_kills_waits_propagates :
    onCancel ProcState.running = (ProcState.exited (-9), CancelSignal.cancelled)
    ∧ (∀ code : Int,
        onCancel (ProcState.exited code) = (ProcState.exited code, CancelSignal.cancelled))
    ∧ (∀ p : ProcState, ∃ code : Int,
        onCancel p = (ProcState.exited code, CancelSignal.cancelled)) := by
  refine ⟨rfl, fun _ => rfl, fun p => ?_⟩
  cases p with
  | running => exact ⟨-9, rfl⟩
  | exited code => exact ⟨code, rfl⟩

/-- C1: an Unhealthy probe result is never terminal — processing it
re-enqueues a fresh probe for the same record in the same cycle, and the
in-flight count for a container drops in a step exactly by its Healthy /
NotApplicable resolutions; without a timeout the run returns success when
the in-flight set empties, which requires every inspected container to
have resolved Healthy or NotApplicable at least once. -/
theorem unhealthy_never_terminal :
    (∀ (rec : InspectData) (code : Int) (pr : ProbeRun) (fs : List (SchedTask × Int))
      (td : Bool) (pend : List SchedTask),
      is_healthy rec code = .ok pr → pr.healthy = some false →
      processLoop ((SchedTask.probe rec, code) :: fs) td pend
        = processLoop fs td (pend ++ [SchedTask.probe rec]))
    ∧ (∀ (b : Bool) (s s' : SchedState) (cyc : Cycle), stepCycle b s cyc = .running s' →
      ∀ r, countFor r s'.pending + resolvedCount r (splitCycle s.pending cyc).1
        = countFor r s.pending)
    ∧ (∀ (records : List InspectData) (sched : List Cycle) (r : InspectData),
      r ∈ records → check_containers records none sched = .success →
      1 ≤ sumResolved false r (SchedState.mk (initialPending records none) false) sched)
    ∧ (∀ (td : Bool) (cs : List Cycle),
      runAux false (SchedState.mk [] td) cs = .success) := by
  refine ⟨?_, ?_, ?_, ?_⟩
  · intro rec code pr fs td pend h hu
    have hrec := is_healthy_record h
    simp only [processLoop, h]
    rw [if_pos hu, hrec]
  · intro b s s' cyc h r
    exact stepCycle_running_count r h
  · intro records sched r hm hs
    unfold check_containers at hs
    have h1 : countFor r (initialPending records none)
        ≤ sumResolved false r (SchedState.mk (initialPending records none) false) sched :=
      runAux_success_le r sched _ hs
    have h2 := countFor_initialPending r records none
    have h3 := countFor_map_probe_of_mem hm
    omega
  · intro td cs
    exact runAux_nil_pending false td cs

/-- The container record used by the C1 witness. -/
def recC1 : InspectData :=
  InspectData.mk "w1" "/w1" (Config.mk (some (Healthcheck.mk ["CMD", "ok"])))

/-- Witness for C1: a run in which the single container probes Unhealthy
once and then Healthy succeeds, and its resolution total is at least 1. -/
theorem unhealthy_never_terminal_witness :
    (recC1 ∈ [recC1]
      ∧ check_containers [recC1] none [[some 1], [some 0]] = StepResult.success)
    ∧ 1 ≤ sumResolved false recC1
        (SchedState.mk (initialPending [recC1] none) false) [[some 1], [some 0]] := by
  refine ⟨⟨?_, ?_⟩, ?_⟩
  · decide
  · decide
  · exact unhealthy_never_terminal.2.2.1 [recC1] [[some 1], [some 0]] recC1
      (by decide) (by decide)

/-- C2 (amended): once the timer has fired, if at least one task remains in
flight after the completed batch is processed (including any probe
re-enqueued in that batch), the step cancels and awaits exactly the
remaining in-flight tasks — each cancelled probe's subprocess has exited
when its cancellation completes — and the run fails with TimeoutFailure;
if no task remains, the run instead returns success. -/
theorem timeout_cancels_all_then_fails :
    (∀ (b : Bool) (s : SchedState) (c : Cycle) (pend : List SchedTask),
      s.pending ≠ [] → ¬(b = true ∧ s.pending.length = 1) →
      processLoop (splitCycle s.pending c).1 s.timedout (splitCycle s.pending c).2
        = .ok (true, pend) →
      pend ≠ [] →
      stepCycle b s c = .timeoutFailure pend)
    ∧ (∀ p : ProcState, ∃ code : Int,
        onCancel p = (ProcState.exited code, CancelSignal.cancelled))
    ∧ (∀ (b : Bool) (s : SchedState) (c : Cycle),
      s.pending ≠ [] → ¬(b = true ∧ s.pending.length = 1) →
      processLoop (splitCycle s.pending c).1 s.timedout (splitCycle s.pending c).2
        = .ok (true, []) →
      ∀ cs, runAux b s (c :: cs) = .success) := by
  refine ⟨?_, ?_, ?_⟩
  · intro b s c pend h0 h1 hp h2
    unfold stepCycle
    rw [if_neg h0, if_neg h1]
    simp only [hp]
    simp [h2]
  · intro p
    cases p with
    | running => exact ⟨-9, rfl⟩
    | exited code => exact ⟨code, rfl⟩
  · intro b s c h0 h1 hp cs
    have hstep : stepCycle b s c = .running (SchedState.mk [] true) := by
      unfold stepCycle
      rw [if_neg h0, if_neg h1]
      simp only [hp]
      rw [if_neg (by simp)]
    unfold runAux
    simp only [hstep]
    exact runAux_nil_pending b true cs

/-- The container record used by the C2 witness. -/
def recC2w : InspectData :=
  InspectData.mk "w2" "/w2" (Config.mk (some (Healthcheck.mk ["CMD", "ok"])))

/-- Witness for C2: the timer fires in the same cycle as an Unhealthy
probe; the freshly re-enqueued probe is the remaining in-flight task, it is
cancelled, and the step raises TimeoutFailure. -/
theorem timeout_cancels_all_then_fails_witness :
    stepCycle true (SchedState.mk [SchedTask.probe recC2w, SchedTask.timer] false)
      [some 1, some 0] = .timeoutFailure [SchedTask.probe recC2w] :=
  timeout_cancels_all_then_fails.1 true
    (SchedState.mk [SchedTask.probe recC2w, SchedTask.timer] false)
    [some 1, some 0] [SchedTask.probe recC2w]
    (by decide) (by decide) (by decide) (by decide)

/-- The container record used by the C2 counterexample. -/
def recC2 : InspectData :=
  InspectData.mk "c2" "/c2" (Config.mk (some (Healthcheck.mk ["CMD", "ok"])))

/-- C2 counterexample: a run with timeout 5 whose timer fires in the same
wait cycle as the only probe completing Healthy: the timedout flag is set
with nothing left in flight, and the run returns success instead of
failing with TimeoutFailure. -/
theorem timeout_fired_but_success_counterexample :
    check_containers [recC2] (some 5) [[some 0, some 0]] = StepResult.success
    ∧ initialPending [recC2] (some 5) = [SchedTask.probe recC2, SchedTask.timer]
    ∧ processLoop (splitCycle (initialPending [recC2] (some 5)) [some 0, some 0]).1 false
        (splitCycle (initialPending [recC2] (some 5)) [some 0, some 0]).2
      = .ok (true, []) := ⟨by decide, by decide, by decide⟩

/-- C4 (amended): when the timer and the last pending probe complete in
the same wait cycle, the outcome depends on the probe's result: Unhealthy
re-enqueues a fresh probe which is then cancelled and the run reports
TimeoutFailure; Healthy or NotApplicable leaves nothing in flight and the
run returns success. In both outcomes no probe task is left pending when
the run returns. -/
theorem race_same_cycle_result_decides :
    ∀ (rec : InspectData) (code : Int) (pr : ProbeRun),
      is_healthy rec code = .ok pr →
      ((pr.healthy = some false →
        stepCycle true (SchedState.mk [SchedTask.probe rec, SchedTask.timer] false)
          [some code, some 0] = .timeoutFailure [SchedTask.probe rec])
      ∧ (pr.healthy ≠ some false →
        ∀ cs, runAux true (SchedState.mk [SchedTask.probe rec, SchedTask.timer] false)
          ([some code, some 0] :: cs) = .success)) := by
  intro rec code pr h
  have hrec := is_healthy_record h
  constructor
  · intro hu
    unfold stepCycle
    rw [if_neg (by simp), if_neg (by simp)]
    simp only [splitCycle, processLoop, h]
    rw [if_pos hu]
    simp only [processLoop, hrec]
    simp
  · intro hu cs
    have hstep : stepCycle true (SchedState.mk [SchedTask.probe rec, SchedTask.timer] false)
        [some code, some 0] = .running (SchedState.mk [] true) := by
      unfold stepCycle
      rw [if_neg (by simp), if_neg (by simp)]
      simp only [splitCycle, processLoop, h]
      rw [if_neg hu]
      simp only [processLoop]
      rw [if_neg (by simp)]
    unfold runAux
    simp only [hstep]
    exact runAux_nil_pending true true cs

/-- The container record used by the C4 witness. -/
def recC4w : InspectData :=
  InspectData.mk "w4" "/w4" (Config.mk (some (Healthcheck.mk ["CMD", "ok"])))

/-- Witness for C4: the Unhealthy side of the race at a concrete record and
exit code 1. -/
theorem race_same_cycle_result_decides_witness :
    stepCycle true (SchedState.mk [SchedTask.probe recC4w, SchedTask.timer] false)
      [some 1, some 0] = .timeoutFailure [SchedTask.probe recC4w] :=
  (race_same_cycle_result_decides recC4w 1
    (ProbeRun.mk (some (Spawn.args "w4" ["ok"])) recC4w (some false))
    (by decide)).1 (by decide)

/-- The container record used by the C4 counterexample. -/
def recC4 : InspectData :=
  InspectData.mk "c4" "/c4" (Config.mk (some (Healthcheck.mk ["CMD-SHELL", "ok"])))

/-- C4 counterexample: the timer and the last pending probe complete in the
same wait cycle and the probe reports Healthy: the run returns success, not
the TimeoutFailure the claim requires regardless of the probe's result. -/
theorem race_last_probe_healthy_counterexample :
    check_containers [recC4] (some 1) [[some 0, some 0]] = StepResult.success
    ∧ initialPending [recC4] (some 1) = [SchedTask.probe recC4, SchedTask.timer] :=
  ⟨by decide, by decide⟩

/-- C7: starting from duplicate-free inspection records, every loop state
the scheduler can reach has at most one in-flight probe per container
record; and a completed probe hands back its inspection record unchanged,
so each re-enqueue re-uses the same record without a renewed inspection. -/
theorem at_most_one_probe_per_container :
    (∀ (records : List InspectData) (timeout : Option Int) (s : SchedState),
      records.Nodup →
      Reaches (timeoutTruthy timeout)
        (SchedState.mk (initialPending records timeout) false) s →
      ∀ r, countFor r s.pending ≤ 1)
    ∧ (∀ (rec : InspectData) (code : Int) (pr : ProbeRun),
      is_healthy rec code = .ok pr → pr.record = rec) := by
  constructor
  · intro records timeout s hnd hr r
    have h1 : countFor r s.pending ≤ countFor r (initialPending records timeout) :=
      reaches_countFor_le hr r
    have h2 := countFor_initialPending r records timeout
    have h3 := countFor_map_probe_nodup hnd r
    omega
  · intro rec code pr h
    exact is_healthy_record h

/-- The container record used by the C7 witness. -/
def recC7 : InspectData :=
  InspectData.mk "w7" "/w7" (Config.mk (some (Healthcheck.mk ["CMD", "ok"])))

/-- Witness for C7: after one step in which the single probe completes
Unhealthy and is re-enqueued, its container still has at most one in-flight
probe. -/
theorem at_most_one_probe_per_container_witness :
    ([recC7].Nodup
      ∧ stepCycle false (SchedState.mk (initialPending [recC7] none) false) [some 1]
        = .running (SchedState.mk [SchedTask.probe recC7] false))
    ∧ countFor recC7 (SchedState.mk [SchedTask.probe recC7] false).pending ≤ 1 := by
  refine ⟨⟨?_, ?_⟩, ?_⟩
  · decide
  · decide
  · exact at_most_one_probe_per_container.1 [recC7] none
      (SchedState.mk [SchedTask.probe recC7] false) (by decide)
      (Reaches.step [some 1] (by decide) (Reaches.refl _)) recC7

/-- C10: a timeout value of 0 is falsy exactly like an absent timeout: no
timer task is started, the run is identical to a run with no timeout, and
no run with timeout 0 can fail with TimeoutFailure. -/
theorem timeout_zero_same_as_none :
    timeoutTruthy (some 0) = false
    ∧ (∀ records : List InspectData,
        initialPending records (some 0) = records.map SchedTask.probe)
    ∧ (∀ (records : List InspectData) (sched : List Cycle),
        check_containers records (some 0) sched = check_containers records none sched)
    ∧ (∀ (records : List InspectData) (sched : List Cycle) (l : List SchedTask),
        check_containers records (some 0) sched ≠ StepResult.timeoutFailure l) := by
  refine ⟨by decide, ?_, ?_, ?_⟩
  · intro records
    simp [initialPending, timeoutTruthy]
  · intro records sched
    rfl
  · intro records sched l
    unfold check_containers
    have h0 : initialPending records (some 0) = records.map SchedTask.probe := by
      simp [initialPending, timeoutTruthy]
    rw [h0]
    exact runAux_no_timeoutFailure sched
      (SchedState.mk (records.map SchedTask.probe) false)
      (noTimer_map_probe records) rfl l

end DockerHealthchecker
